import Mathlib

/-!
A shallow embedding of the gist-memory document agent (`gist_agent.py`):
pagination with model-assisted break points, the page/summary store,
the two-stage recall controller, and the LLM metrics collector.

The inference endpoint is modelled as a deterministic oracle
`infer : String → Option String` (`None` models a failed call, matching
`_run_llm` returning `None`).  Every operation that performs inference
also returns the number of inference calls it made, mirroring the
`llm_calls` counter that the source increments inside `_run_llm`.
-/

namespace Gist

/-- Helper for Python `s.split()`: accumulate maximal nonblank runs,
splitting on whitespace and dropping empty pieces. -/
def splitWsAux : List Char → List Char → List (List Char)
  | [], acc => if acc = [] then [] else [acc.reverse]
  | c :: cs, acc =>
    if c.isWhitespace then
      if acc = [] then splitWsAux cs [] else acc.reverse :: splitWsAux cs []
    else splitWsAux cs (c :: acc)

/-- Python `s.split()`: the whitespace-separated words of a string. -/
def pyWords (s : String) : List (List Char) :=
  splitWsAux s.toList []

/-- `len(s.split())` — the word count used by the paginator. -/
def wordCount (s : String) : Nat :=
  (pyWords s).length

/-- Python `s.strip()`: drop leading and trailing whitespace. -/
def pyStrip (l : List Char) : List Char :=
  ((l.dropWhile Char.isWhitespace).reverse.dropWhile Char.isWhitespace).reverse

/-- Python `s.strip()` on strings. -/
def pyStripStr (s : String) : String :=
  String.mk (pyStrip s.toList)

/-- Helper for Python `s.split(',')`: split at every comma, keeping
empty pieces. -/
def pySplitCommaAux : List Char → List Char → List (List Char)
  | [], acc => [acc.reverse]
  | c :: cs, acc =>
    if c = ',' then acc.reverse :: pySplitCommaAux cs []
    else pySplitCommaAux cs (c :: acc)

/-- Python `s.split(',')`. -/
def pySplitComma (l : List Char) : List (List Char) :=
  pySplitCommaAux l []

/-- Total word count of `paragraphs[start:]` (the remaining document). -/
def remWords (paragraphs : List String) (start : Nat) : Nat :=
  ((paragraphs.drop start).map wordCount).sum

/-- Numeric value of a list of decimal digit characters (Python `int`). -/
def digitsVal (l : List Char) : Nat :=
  l.foldl (fun a c => a * 10 + (c.toNat - 48)) 0

/-- Python `p.strip().isnumeric()` approximated over decimal digits:
nonempty and all digits. -/
def isNumericTok (t : List Char) : Bool :=
  t ≠ [] && t.all Char.isDigit

/-- `re.search(r"<(\d+)>", text)` on a character list: find the first
`<digits>` occurrence and return the number.  The digit class excludes
`>`, so the greedy `\d+` match succeeds exactly when the maximal digit
run after `<` is nonempty and is followed by `>`. -/
def parsePausePointAux : List Char → Option Nat
  | [] => none
  | c :: cs =>
    if c = '<' then
      let p := List.span Char.isDigit cs
      if p.1 ≠ [] then
        match p.2 with
        | '>' :: _ => some (digitsVal p.1)
        | _ => parsePausePointAux cs
      else parsePausePointAux cs
    else parsePausePointAux cs

/-- `_parse_pause_point`: parse the `<n>` break label from a response. -/
def parsePausePoint (s : String) : Option Nat :=
  parsePausePointAux s.toList

/-- The character class `[\d,\s]` of the lookup-list regex. -/
def bracketClassChar (c : Char) : Bool :=
  c.isDigit || c = ',' || c.isWhitespace

/-- `re.search(r'\[([\d,\s]+)\]', text)`: first `[`-delimited nonempty
run of digits/commas/whitespace closed by `]`; returns the group.  The
class excludes `]`, so greedy matching needs no further backtracking. -/
def firstBracketGroupAux : List Char → Option (List Char)
  | [] => none
  | c :: cs =>
    if c = '[' then
      let p := List.span bracketClassChar cs
      if p.1 ≠ [] then
        match p.2 with
        | ']' :: _ => some p.1
        | _ => firstBracketGroupAux cs
      else firstBracketGroupAux cs
    else firstBracketGroupAux cs

/-- First bracketed digit/comma/space group of a response, as a string. -/
def firstBracketGroup (s : String) : Option String :=
  (firstBracketGroupAux s.toList).map fun l => String.mk l

/-- The numeric values of the numeric tokens of a bracket group: split
on commas, strip, keep the numeric tokens.  (Used to state what "the
first bracketed comma-separated integer list" of a response is.) -/
def numericTokenValues (g : String) : List Nat :=
  ((pySplitComma g.toList).map pyStrip).filterMap
    (fun t => if isNumericTok t then some (digitsVal t) else none)

/-- The validated lookup selection of `answer` (its `page_ids` list):
parse the first bracketed list, split on commas, keep numeric tokens
whose value is a valid page index, preserving order and duplicates. -/
def lookupPageIds (text : String) (numPages : Nat) : List Nat :=
  match firstBracketGroup text with
  | none => []
  | some g =>
    (pySplitComma g.toList).foldl
      (fun acc p =>
        let s := pyStrip p
        if isNumericTok s then
          let pid := digitsVal s
          if pid < numPages then acc ++ [pid] else acc
        else acc)
      []

/-- The expansion stage of `answer`: start from a copy of the summaries
and overwrite each selected index with the page's full text joined by
newlines. -/
def expandPages (shortened : List String) (pages : List (List String))
    (pageIds : List Nat) : List String :=
  pageIds.foldl
    (fun acc pid => acc.set pid (String.intercalate "\n" (pages.getD pid [])))
    shortened

/-- `PROMPT_PAGINATION_TEMPLATE.format(preceding, passage, endTag)`. -/
def promptPagination (preceding passage endTag : String) : String :=
  "\nYou are given a passage that is taken from a larger text (article, book, ...) and some numbered labels between the paragraphs in the passage.\nNumbered label are in angeled brackets. For example, if the label number is 19, it shows as <19> in text.\nPlease choose one label that it is natural to break reading.\nSuch point can be scene transition, end of a dialogue, end of an argument, narrative transition, etc.\nPlease answer the break point label and explain.\nFor example, if <57> is a good point to break, answer with \"Break point: <57>\n Because ...\"\n\nPassage:\n\n"
    ++ preceding ++ "\n" ++ passage ++ "\n" ++ endTag ++ "\n"

/-- `PROMPT_SHORTEN_TEMPLATE.format(page)`. -/
def promptShorten (page : String) : String :=
  "\nPlease shorten the following passage.\nJust give me a shortened version. DO NOT explain your reason.\n\nPassage:\n"
    ++ page ++ "\n"

/-- `PROMPT_LOOKUP_TEMPLATE.format(text, question)`. -/
def promptLookup (text question : String) : String :=
  "\nThe following text is what you remembered from reading an article and a multiple choice question related to it.\nYou may read 1 to 6 page(s) of the article again to refresh your memory to prepare yourself for the question.\nPlease respond with which page(s) you would like to read.\nFor example, if your only need to read Page 8, respond with \"I want to look up Page [8] to ...\";\nif your would like to read Page 7 and 12, respond with \"I want to look up Page [7, 12] to ...\";\nif your would like to read Page 2, 3, 7, 15 and 18, respond with \"I want to look up Page [2, 3, 7, 15, 18] to ...\".\nif your would like to read Page 3, 4, 5, 12, 13 and 16, respond with \"I want to look up Page [3, 3, 4, 12, 13, 16] to ...\".\nDO NOT select more pages if you don\x27t need to.\nDO NOT answer the question yet.\n\nText:\n"
    ++ text ++ "\n\nQuestion:\n" ++ question
    ++ "\n\nTake a deep breath and tell me: Which page(s) would you like to read again?\n"

/-- `PROMPT_FREE_ANSWER_TEMPLATE.format(article, question)`. -/
def promptFreeAnswer (article question : String) : String :=
  "\nRead the following article and then answer the question.\n\nArticle:\n"
    ++ article ++ "\n\nQuestion:\n" ++ question ++ "\n"

/-- `word_limit` in `_get_next_page_break`. -/
def wordLimit : Nat := 600

/-- `start_threshold` in `_get_next_page_break`. -/
def startThreshold : Nat := 280

/-- The numbered label inserted between paragraphs, Python `f"<{j}>"`. -/
def labelTag (j : Nat) : String :=
  "<" ++ toString j ++ ">"

/-- The accumulation loop of `_get_next_page_break`
(`while wcount < word_limit and j < len(paragraphs): ...`), written with
structural fuel; callers pass fuel `paragraphs.length`, which always
suffices since `j` increases each iteration and the loop stops at
`j = paragraphs.length`.  Returns `(j, wcount, passage)`. -/
def accumWindow (paragraphs : List String) :
    Nat → Nat → Nat → List String → Nat × Nat × List String
  | 0, j, wcount, passage => (j, wcount, passage)
  | fuel + 1, j, wcount, passage =>
    if wcount < wordLimit ∧ j < paragraphs.length then
      let wcount2 := wcount + wordCount (paragraphs.getD j "")
      let passage2 :=
        (passage ++ (if startThreshold ≤ wcount2 then [labelTag j] else []))
          ++ [paragraphs.getD j ""]
      accumWindow paragraphs fuel (j + 1) wcount2 passage2
    else (j, wcount, passage)

/-- The window computed by `_get_next_page_break` before the 350-word
check: seed the passage with `paragraphs[start]`, then accumulate. -/
def gnpbWindow (paragraphs : List String) (start : Nat) :
    Nat × Nat × List String :=
  let p0 := paragraphs.getD start ""
  accumWindow paragraphs paragraphs.length (start + 1) (wordCount p0) [p0]

/-- `j` after the accumulation loop: the window end, one past the last
paragraph accumulated into the window, and the last label offered. -/
def windowEnd (paragraphs : List String) (start : Nat) : Nat :=
  (gnpbWindow paragraphs start).1

/-- `wcount` after the accumulation loop. -/
def windowWords (paragraphs : List String) (start : Nat) : Nat :=
  (gnpbWindow paragraphs start).2.1

/-- The pagination prompt `_get_next_page_break` sends: previous page
tail, labeled passage (closed by the final `<j>` label), end excerpt. -/
def paginationPrompt (pages : List (List String)) (paragraphs : List String)
    (start : Nat) : String :=
  let preceding :=
    if start = 0 then ""
    else "...\n" ++ String.intercalate "\n" (pages.getLastD [])
  let w := gnpbWindow paragraphs start
  let j := w.1
  let passage := w.2.2 ++ [labelTag j]
  let endTag :=
    if j = paragraphs.length then "" else paragraphs.getD j "" ++ "\n..."
  promptPagination preceding (String.intercalate "\n" passage) endTag

/-- `_get_next_page_break`, also returning its number of inference
calls.  `pages` is the agent's current page list (read for the
preceding-context tail). -/
def getNextPageBreakM (infer : String → Option String)
    (pages : List (List String)) (paragraphs : List String) (start : Nat) :
    Nat × Nat :=
  let w := gnpbWindow paragraphs start
  let j := w.1
  let wcount := w.2.1
  if wcount < 350 then (paragraphs.length, 0)
  else
    match infer (paginationPrompt pages paragraphs start) with
    | none => (j, 1)
    | some response =>
      match parsePausePoint response with
      | some pausePoint =>
        if pausePoint ≠ 0 ∧ start < pausePoint ∧ pausePoint ≤ j then
          (pausePoint, 1)
        else (j, 1)
      | none => (j, 1)

/-- The break index returned by `_get_next_page_break`. -/
def getNextPageBreak (infer : String → Option String)
    (pages : List (List String)) (paragraphs : List String) (start : Nat) :
    Nat :=
  (getNextPageBreakM infer pages paragraphs start).1

/-- `a` is a prefix of `b` (character lists). -/
def leadsWith : List Char → List Char → Bool
  | [], _ => true
  | _ :: _, [] => false
  | a :: as, b :: bs => a = b && leadsWith as bs

/-- The character class `[a-z ]` of `_post_process_summary`'s pattern. -/
def summaryClassChar (c : Char) : Bool :=
  c.isLower || c = ' '

/-- The lazy `.*?:` tail of the pattern: index of the first `:` reached
without crossing a newline (`.` does not match `\n`), else `none`. -/
def firstColonLen : List Char → Option Nat
  | [] => none
  | c :: cs =>
    if c = ':' then some 0
    else if c = '\n' then none
    else (firstColonLen cs).map (fun n => n + 1)

/-- Backtracking over the greedy `[a-z ]+` of the pattern
`here[a-z ]+ shortened.*?:`: try run lengths `k` downward; at each `k`
require the literal `" shortened"` and then the lazy `.*?:` tail.
Returns the matched length after the leading `here`. -/
def summaryTryLen (rest : List Char) : Nat → Option Nat
  | 0 => none
  | k + 1 =>
    let after := rest.drop (k + 1)
    if leadsWith [' ', 's', 'h', 'o', 'r', 't', 'e', 'n', 'e', 'd'] after then
      match firstColonLen (after.drop 10) with
      | some m => some ((k + 1) + 10 + m + 1)
      | none => summaryTryLen rest k
    else summaryTryLen rest k

/-- `re.match(r"(here[a-z ]+ shortened.*?:)", lowered)`: length of the
anchored match of the conversational-preamble pattern, if any. -/
def summaryMatchLen (lowered : List Char) : Option Nat :=
  if leadsWith ['h', 'e', 'r', 'e'] lowered then
    let rest := lowered.drop 4
    let run := (List.span summaryClassChar rest).1
    match summaryTryLen rest run.length with
    | some len => some (4 + len)
    | none => none
  else none

/-- `_post_process_summary`: strip a recognized conversational preamble
(matched case-insensitively at the start) and trim the remainder. -/
def postProcessSummary (text : String) : String :=
  match summaryMatchLen (text.toList.map Char.toLower) with
  | some len => pyStripStr (String.mk (text.toList.drop len))
  | none => text

/-- `_create_summary`, also returning its number of inference calls
(always one: the call is made whether or not it succeeds). -/
def createSummaryM (infer : String → Option String) (page : List String) :
    String × Nat :=
  match infer (promptShorten (String.intercalate "\n" page)) with
  | none => ("Failed to generate summary.", 1)
  | some response => (postProcessSummary (pyStripStr response), 1)

/-- The `while pause_point < total_paragraphs` loop of
`process_document`, written with structural fuel; `process_document`
passes fuel `paragraphs.length`, which always suffices because every
break index strictly exceeds the cursor (proved below).  State:
`(pausePoint, pages, shortened, calls)`; returns the final
`(pages, shortened, calls)`. -/
def processLoop (infer : String → Option String) (paragraphs : List String) :
    Nat → Nat → List (List String) → List String → Nat →
      List (List String) × List String × Nat
  | 0, _, pages, shortened, calls => (pages, shortened, calls)
  | fuel + 1, pausePoint, pages, shortened, calls =>
    if pausePoint < paragraphs.length then
      let r := getNextPageBreakM infer pages paragraphs pausePoint
      let newPause := r.1
      let currentPage := (paragraphs.drop pausePoint).take (newPause - pausePoint)
      let s := createSummaryM infer currentPage
      processLoop infer paragraphs fuel newPause (pages ++ [currentPage])
        (shortened ++ [s.1]) (calls + r.2 + s.2)
    else (pages, shortened, calls)

/-- The agent's document state: title (as returned by the title
extractor, `none` when absent), full-text pages, and their summaries. -/
structure AgentState where
  title : Option String
  pages : List (List String)
  shortenedPages : List String
deriving DecidableEq

/-- The state set up by `GistAgent.__init__`. -/
def initialAgentState : AgentState :=
  { title := some "", pages := [], shortenedPages := [] }

/-- `process_document`, taking the Text Source Adapter's outputs (title
and paragraphs) as inputs; returns the new state and the number of
inference calls.  A falsy title (`None` or empty) aborts before the
pagination loop. -/
def processDocument (infer : String → Option String)
    (titleResult : Option String) (paragraphs : List String)
    (st : AgentState) : AgentState × Nat :=
  let st1 : AgentState := { st with title := titleResult }
  if titleResult = none ∨ titleResult = some "" then (st1, 0)
  else
    let r := processLoop infer paragraphs paragraphs.length 0 st1.pages
      st1.shortenedPages 0
    ({ st1 with pages := r.1, shortenedPages := r.2.1 }, r.2.2)

/-- The failure outcomes of `answer` (each an early `return` after an
error message in the source; the spec names the first
`NotProcessedError`). -/
inductive AnswerFailure where
  | notProcessed
  | lookupFailed
  | finalFailed
deriving DecidableEq

/-- `answer`: gist-level lookup, validated selection, expansion, final
synthesis.  Returns the outcome and the number of inference calls. -/
def answerM (infer : String → Option String) (st : AgentState)
    (question : String) : Except AnswerFailure String × Nat :=
  if st.pages = [] then (Except.error AnswerFailure.notProcessed, 0)
  else
    let shortenedArticle :=
      String.intercalate "\n"
        (st.shortenedPages.enum.map
          (fun p => "\nPage " ++ toString p.1 ++ ":\n" ++ p.2))
    match infer (promptLookup shortenedArticle question) with
    | none => (Except.error AnswerFailure.lookupFailed, 1)
    | some intermediate =>
      let pageIds := lookupPageIds intermediate st.pages.length
      let expandedArticle :=
        String.intercalate "\n" (expandPages st.shortenedPages st.pages pageIds)
      match infer (promptFreeAnswer expandedArticle question) with
      | none => (Except.error AnswerFailure.finalFailed, 2)
      | some finalAnswer => (Except.ok (pyStripStr finalAnswer), 2)

/-- The optional usage block of an inference response. -/
structure Usage where
  prompt_tokens : Nat
  completion_tokens : Nat
  total_tokens : Nat
deriving DecidableEq

/-- The optional timing block of an inference response. -/
structure TimeInfo where
  completion_time : ℚ
deriving DecidableEq

/-- The metric-bearing parts of an inference response. -/
structure LlmResponse where
  time_info : Option TimeInfo
  usage : Option Usage
deriving DecidableEq

/-- The `llm_metrics` dictionary. -/
structure Metrics where
  llm_calls : Nat
  completion_time : ℚ
  prompt_tokens : Nat
  response_tokens : Nat
  total_tokens : Nat
  avg_tokens_per_second : ℚ
deriving DecidableEq

/-- `_get_initial_metrics`. -/
def initialMetrics : Metrics :=
  { llm_calls := 0, completion_time := 0, prompt_tokens := 0,
    response_tokens := 0, total_tokens := 0, avg_tokens_per_second := 0 }

/-- The time added by `_update_llm_metrics`: endpoint-reported
completion time when present, else the measured wall-clock delta. -/
def effectiveTime (response : LlmResponse) (delta : ℚ) : ℚ :=
  match response.time_info with
  | some ti => ti.completion_time
  | none => delta

/-- `_update_llm_metrics`. -/
def updateLlmMetrics (m : Metrics) (response : LlmResponse) (delta : ℚ) :
    Metrics :=
  let m1 : Metrics :=
    { m with llm_calls := m.llm_calls + 1,
             completion_time := m.completion_time + effectiveTime response delta }
  let m2 : Metrics :=
    match response.usage with
    | some u =>
      { m1 with prompt_tokens := m1.prompt_tokens + u.prompt_tokens,
                response_tokens := m1.response_tokens + u.completion_tokens,
                total_tokens := m1.total_tokens + u.total_tokens }
    | none => m1
  if 0 < m2.completion_time ∧ 0 < m2.response_tokens then
    { m2 with avg_tokens_per_second :=
        (m2.response_tokens : ℚ) / m2.completion_time }
  else m2

/-- Page boundary indices of a list of pages laid end to end from a
given start index: `pageBoundsFrom s [p0, p1, ...]` is
`[s, s + |p0|, s + |p0| + |p1|, ...]`. -/
def pageBoundsFrom (s : Nat) : List (List String) → List Nat
  | [] => [s]
  | p :: ps => s :: pageBoundsFrom (s + p.length) ps

/-- Boundary indices of a page list starting at paragraph 0. -/
def pageBounds (pages : List (List String)) : List Nat :=
  pageBoundsFrom 0 pages

/-- The pagination loop exactly as `process_document` starts it: cursor
at paragraph 0, empty accumulators, fuel `paragraphs.length`. -/
def runPagination (infer : String → Option String) (paragraphs : List String) :
    List (List String) × List String × Nat :=
  processLoop infer paragraphs paragraphs.length 0 [] [] 0

theorem accumWindow_fst_ge (paragraphs : List String) :
    ∀ fuel j w p, j ≤ (accumWindow paragraphs fuel j w p).1 := by
  intro fuel
  induction fuel with
  | zero => intro j w p; simp [accumWindow]
  | succ n ih =>
    intro j w p
    simp only [accumWindow]
    split
    · exact Nat.le_trans (Nat.le_succ j) (ih _ _ _)
    · exact Nat.le_refl j

theorem accumWindow_fst_le (paragraphs : List String) :
    ∀ fuel j w p, j ≤ paragraphs.length →
      (accumWindow paragraphs fuel j w p).1 ≤ paragraphs.length := by
  intro fuel
  induction fuel with
  | zero => intro j w p h; simpa [accumWindow] using h
  | succ n ih =>
    intro j w p h
    simp only [accumWindow]
    split
    · next hc => exact ih _ _ _ hc.2
    · simpa using h

theorem accumWindow_stop (paragraphs : List String) (fuel j w : Nat)
    (p : List String) (h : ¬ (w < wordLimit ∧ j < paragraphs.length)) :
    accumWindow paragraphs fuel j w p = (j, w, p) := by
  cases fuel <;> simp [accumWindow, h]

theorem accumWindow_consume (paragraphs : List String) :
    ∀ fuel j w p, j ≤ paragraphs.length → paragraphs.length - j ≤ fuel →
      w + ((paragraphs.drop j).map wordCount).sum < wordLimit →
      (accumWindow paragraphs fuel j w p).1 = paragraphs.length ∧
      (accumWindow paragraphs fuel j w p).2.1 =
        w + ((paragraphs.drop j).map wordCount).sum := by
  intro fuel
  induction fuel with
  | zero =>
    intro j w p hle hfuel _
    have hj : j = paragraphs.length := by omega
    subst hj
    simp [accumWindow]
  | succ n ih =>
    intro j w p hle hfuel hsum
    by_cases hj : j < paragraphs.length
    · have hw : w < wordLimit := by
        have := Nat.le_add_right w ((paragraphs.drop j).map wordCount).sum
        omega
      have hdrop : paragraphs.drop j = paragraphs[j] :: paragraphs.drop (j + 1) :=
        List.drop_eq_getElem_cons hj
      have hgetD : paragraphs.getD j "" = paragraphs[j] := by
        simp [List.getD_eq_getElem?_getD, List.getElem?_eq_getElem hj]
      have hsum' : ((paragraphs.drop j).map wordCount).sum =
          wordCount paragraphs[j] + ((paragraphs.drop (j + 1)).map wordCount).sum := by
        rw [hdrop, List.map_cons, List.sum_cons]
      simp only [accumWindow]
      rw [if_pos ⟨hw, hj⟩, hgetD]
      constructor
      · refine (ih (j + 1) (w + wordCount paragraphs[j]) _ ?_ ?_ ?_).1 <;> omega
      · rw [hsum', ← Nat.add_assoc]
        exact (ih (j + 1) (w + wordCount paragraphs[j]) _ (by omega) (by omega)
          (by omega)).2
    · have hj' : j = paragraphs.length := by omega
      rw [accumWindow_stop paragraphs _ _ _ _ (by simp [hj])]
      subst hj'
      simp

theorem windowEnd_gt (paragraphs : List String) (start : Nat) :
    start < windowEnd paragraphs start := by
  have := accumWindow_fst_ge paragraphs paragraphs.length (start + 1)
    (wordCount (paragraphs.getD start "")) [paragraphs.getD start ""]
  simp only [windowEnd, gnpbWindow]
  omega

theorem windowEnd_le (paragraphs : List String) (start : Nat)
    (h : start < paragraphs.length) :
    windowEnd paragraphs start ≤ paragraphs.length := by
  have := accumWindow_fst_le paragraphs paragraphs.length (start + 1)
    (wordCount (paragraphs.getD start "")) [paragraphs.getD start ""] (by omega)
  simpa [windowEnd, gnpbWindow] using this

theorem getNextPageBreakM_bounds (infer : String → Option String)
    (pages : List (List String)) (paragraphs : List String) (start : Nat)
    (h : start < paragraphs.length) :
    start < (getNextPageBreakM infer pages paragraphs start).1 ∧
    (getNextPageBreakM infer pages paragraphs start).1 ≤ paragraphs.length := by
  have hgt : start < windowEnd paragraphs start := windowEnd_gt paragraphs start
  have hle : windowEnd paragraphs start ≤ paragraphs.length :=
    windowEnd_le paragraphs start h
  simp only [getNextPageBreakM]
  split
  · exact ⟨h, Nat.le_refl _⟩
  · split
    · exact ⟨hgt, hle⟩
    · split
      · split
        · next hc => exact ⟨hc.2.1, Nat.le_trans hc.2.2 hle⟩
        · exact ⟨hgt, hle⟩
      · exact ⟨hgt, hle⟩

theorem take_add_take {α : Type} (P : List α) (a b : Nat) (h : a ≤ b) :
    P.take a ++ (P.drop a).take (b - a) = P.take b := by
  have h1 : a + (b - a) = b := Nat.add_sub_cancel' h
  rw [List.take_drop, h1]
  calc P.take a ++ (P.take b).drop a
      = (P.take b).take a ++ (P.take b).drop a := by
        rw [List.take_take, Nat.min_eq_left h]
    _ = P.take b := List.take_append_drop a (P.take b)

theorem length_le_length_flatten {α : Type} :
    ∀ (l : List (List α)), (∀ p ∈ l, p ≠ []) → l.length ≤ l.flatten.length := by
  intro l
  induction l with
  | nil => simp
  | cons a t ih =>
    intro h
    have ha : a ≠ [] := h a (List.mem_cons_self a t)
    have ha' : 0 < a.length := List.length_pos.mpr ha
    have ht := ih (fun p hp => h p (List.mem_cons_of_mem a hp))
    simp only [List.flatten_cons, List.length_cons, List.length_append]
    omega

theorem processLoop_exit (infer : String → Option String)
    (paragraphs : List String) (fuel pause : Nat) (pages : List (List String))
    (shortened : List String) (calls : Nat)
    (h : ¬ pause < paragraphs.length) :
    processLoop infer paragraphs fuel pause pages shortened calls =
      (pages, shortened, calls) := by
  cases fuel <;> simp [processLoop, h]

theorem processLoop_partition (infer : String → Option String)
    (paragraphs : List String) :
    ∀ fuel pause pages shortened calls,
      pause ≤ paragraphs.length →
      paragraphs.length - pause ≤ fuel →
      pages.flatten = paragraphs.take pause →
      (∀ p ∈ pages, p ≠ []) →
      pages.length = shortened.length →
      (processLoop infer paragraphs fuel pause pages shortened calls).1.flatten
          = paragraphs ∧
      (∀ p ∈ (processLoop infer paragraphs fuel pause pages shortened calls).1,
          p ≠ []) ∧
      (processLoop infer paragraphs fuel pause pages shortened calls).1.length =
        (processLoop infer paragraphs fuel pause pages shortened calls).2.1.length := by
  intro fuel
  induction fuel with
  | zero =>
    intro pause pages shortened calls hle hfuel hflat hne hlen
    have hp : pause = paragraphs.length := by omega
    subst hp
    rw [List.take_length] at hflat
    simpa [processLoop, hflat, hlen] using hne
  | succ n ih =>
    intro pause pages shortened calls hle hfuel hflat hne hlen
    by_cases hp : pause < paragraphs.length
    · have hb := getNextPageBreakM_bounds infer pages paragraphs pause hp
      simp only [processLoop]
      rw [if_pos hp]
      refine ih _ _ _ _ hb.2 (by omega) ?_ ?_ (by simp [hlen])
      · rw [List.flatten_append, hflat]
        simp only [List.flatten_cons, List.flatten_nil, List.append_nil]
        exact take_add_take paragraphs pause
          (getNextPageBreakM infer pages paragraphs pause).1 (Nat.le_of_lt hb.1)
      · intro p hpmem
        rcases List.mem_append.mp hpmem with hold | hnew
        · exact hne p hold
        · have hp1 : p = (paragraphs.drop pause).take
              ((getNextPageBreakM infer pages paragraphs pause).1 - pause) := by
            simpa using hnew
          have hlenp : 0 < p.length := by
            rw [hp1, List.length_take, List.length_drop]
            omega
          exact List.length_pos.mp hlenp
    · have hp' : pause = paragraphs.length := by omega
      subst hp'
      rw [List.take_length] at hflat
      rw [processLoop_exit infer paragraphs _ _ _ _ _ hp]
      exact ⟨hflat, hne, hlen⟩

theorem processLoop_lengths (infer : String → Option String)
    (paragraphs : List String) :
    ∀ fuel pause pages shortened calls,
      pages.length = shortened.length →
      (processLoop infer paragraphs fuel pause pages shortened calls).1.length =
        (processLoop infer paragraphs fuel pause pages shortened calls).2.1.length := by
  intro fuel
  induction fuel with
  | zero => intro pause pages shortened calls h; simpa [processLoop] using h
  | succ n ih =>
    intro pause pages shortened calls h
    simp only [processLoop]
    split
    · exact ih _ _ _ _ (by simp [h])
    · simpa using h

theorem processLoop_fuel_irrel (infer : String → Option String)
    (paragraphs : List String) :
    ∀ fuel fuel' pause pages shortened calls,
      pause ≤ paragraphs.length →
      paragraphs.length - pause ≤ fuel →
      paragraphs.length - pause ≤ fuel' →
      processLoop infer paragraphs fuel pause pages shortened calls =
        processLoop infer paragraphs fuel' pause pages shortened calls := by
  intro fuel
  induction fuel with
  | zero =>
    intro fuel' pause pages shortened calls hle hf hf'
    have hp : ¬ pause < paragraphs.length := by omega
    rw [processLoop_exit infer paragraphs _ _ _ _ _ hp,
      processLoop_exit infer paragraphs _ _ _ _ _ hp]
  | succ n ih =>
    intro fuel' pause pages shortened calls hle hf hf'
    by_cases hp : pause < paragraphs.length
    · have hb := getNextPageBreakM_bounds infer pages paragraphs pause hp
      cases fuel' with
      | zero => omega
      | succ m =>
        simp only [processLoop]
        rw [if_pos hp, if_pos hp]
        exact ih m _ _ _ _ hb.2 (by omega) (by omega)
    · rw [processLoop_exit infer paragraphs _ _ _ _ _ hp,
        processLoop_exit infer paragraphs _ _ _ _ _ hp]

theorem pageBoundsFrom_head (l : List (List String)) (s : Nat) :
    (pageBoundsFrom s l).head? = some s := by
  cases l <;> simp [pageBoundsFrom]

theorem pageBoundsFrom_getLast (l : List (List String)) :
    ∀ s, (pageBoundsFrom s l).getLast? = some (s + (l.map List.length).sum) := by
  induction l with
  | nil => intro s; simp [pageBoundsFrom]
  | cons p ps ih =>
    intro s
    have hne : pageBoundsFrom (s + p.length) ps ≠ [] := by
      cases ps <;> simp [pageBoundsFrom]
    cases hrest : pageBoundsFrom (s + p.length) ps with
    | nil => exact absurd hrest hne
    | cons r rs =>
      have := ih (s + p.length)
      rw [hrest] at this
      simp only [pageBoundsFrom, hrest, List.getLast?_cons_cons, this,
        List.map_cons, List.sum_cons]
      congr 1
      omega

theorem pageBoundsFrom_chain (l : List (List String)) :
    ∀ s, (∀ p ∈ l, p ≠ []) → List.Chain' (· < ·) (pageBoundsFrom s l) := by
  induction l with
  | nil => intro s _; simp [pageBoundsFrom]
  | cons p ps ih =>
    intro s h
    have hp : 0 < p.length :=
      List.length_pos.mpr (h p (List.mem_cons_self p ps))
    simp only [pageBoundsFrom]
    rw [List.chain'_cons']
    refine ⟨?_, ih (s + p.length) (fun q hq => h q (List.mem_cons_of_mem p hq))⟩
    intro y hy
    rw [pageBoundsFrom_head] at hy
    have h' : s + p.length = y := by simpa using hy
    omega

theorem pageBoundsFrom_getD (l : List (List String)) :
    ∀ s k, k ≤ l.length →
      (pageBoundsFrom s l).getD k 0 = s + ((l.map List.length).take k).sum := by
  induction l with
  | nil =>
    intro s k hk
    have : k = 0 := by simpa using hk
    subst this
    simp [pageBoundsFrom]
  | cons p ps ih =>
    intro s k hk
    cases k with
    | zero => simp [pageBoundsFrom]
    | succ m =>
      have hm : m ≤ ps.length := by simpa using hk
      simp only [pageBoundsFrom, List.getD_cons_succ, ih (s + p.length) m hm,
        List.map_cons, List.take_succ_cons, List.sum_cons]
      omega

theorem flatten_slice {α : Type} (l : List (List α)) (i : Nat)
    (h : i < l.length) :
    (l.flatten.drop (((l.map List.length).take i).sum)).take
        (((l.map List.length).take (i + 1)).sum -
          ((l.map List.length).take i).sum) = l[i] := by
  have hmap : i < (l.map List.length).length := by simpa using h
  have hs := List.sum_take_succ (l.map List.length) i hmap
  have hAB : ((l.map List.length).take i).sum +
      (((l.map List.length).take (i + 1)).sum -
        ((l.map List.length).take i).sum) =
      ((l.map List.length).take (i + 1)).sum := by omega
  rw [List.take_drop, hAB, List.drop_take_succ_flatten_eq_getElem l i h]

/-- Running the pagination loop to completion from an empty store
yields pages whose concatenation is the whole document, all nonempty,
with as many summaries as pages. -/
theorem runPagination_partition (infer : String → Option String)
    (paragraphs : List String) :
    (runPagination infer paragraphs).1.flatten = paragraphs ∧
    (∀ p ∈ (runPagination infer paragraphs).1, p ≠ []) ∧
    (runPagination infer paragraphs).1.length =
      (runPagination infer paragraphs).2.1.length :=
  processLoop_partition infer paragraphs paragraphs.length 0 [] [] 0
    (Nat.zero_le _) (by omega) (by simp) (by simp) (by simp)

/-- C1: for every paragraph sequence (and any inference oracle), the
pages produced by running the document-processing loop to completion
exactly partition the sequence: their concatenation is the sequence
itself, every page is nonempty, and the boundary list starts at 0,
strictly increases, ends at the total paragraph count, and cuts each
page as exactly the slice between its two consecutive boundaries — so
every paragraph belongs to exactly one page. -/
theorem c1_pages_partition_document (infer : String → Option String)
    (paragraphs : List String) :
    (runPagination infer paragraphs).1.flatten = paragraphs ∧
    (∀ p ∈ (runPagination infer paragraphs).1, p ≠ []) ∧
    (pageBounds (runPagination infer paragraphs).1).head? = some 0 ∧
    (pageBounds (runPagination infer paragraphs).1).getLast? =
      some paragraphs.length ∧
    List.Chain' (· < ·) (pageBounds (runPagination infer paragraphs).1) ∧
    ∀ i (hi : i < (runPagination infer paragraphs).1.length),
      (runPagination infer paragraphs).1.get ⟨i, hi⟩ =
        (paragraphs.drop
            ((pageBounds (runPagination infer paragraphs).1).getD i 0)).take
          ((pageBounds (runPagination infer paragraphs).1).getD (i + 1) 0 -
            (pageBounds (runPagination infer paragraphs).1).getD i 0) := by
  obtain ⟨hflat, hne, _⟩ := runPagination_partition infer paragraphs
  refine ⟨hflat, hne, pageBoundsFrom_head _ 0, ?_, pageBoundsFrom_chain _ 0 hne, ?_⟩
  · rw [pageBounds, pageBoundsFrom_getLast]
    have : ((runPagination infer paragraphs).1.map List.length).sum =
        paragraphs.length := by
      rw [← List.length_flatten, hflat]
    rw [this, Nat.zero_add]
  · intro i hi
    rw [pageBounds, pageBoundsFrom_getD _ 0 i (Nat.le_of_lt hi),
      pageBoundsFrom_getD _ 0 (i + 1) hi]
    simp only [Nat.zero_add]
    have hslice := flatten_slice (runPagination infer paragraphs).1 i hi
    rw [hflat] at hslice
    rw [List.get_eq_getElem]
    exact hslice.symm

/-- C1 witness: the theorem applied at a concrete oracle and document. -/
theorem c1_pages_partition_document_witness :
    (runPagination (fun _ => none) ["a"]).1.flatten = ["a"] :=
  (c1_pages_partition_document (fun _ => none) ["a"]).1

/-- C2: for every nonempty paragraph list and in-range start index, the
break returned by `_get_next_page_break` strictly exceeds the start and
is at most the paragraph count, for every oracle (in particular one
whose calls all fail); consequently the processing loop performs at
most `paragraphs.length` iterations (it appends one page per iteration
and ends with at most that many pages), and giving the loop any fuel
beyond `paragraphs.length` cannot change its outcome. -/
theorem c2_break_strictly_advances (infer : String → Option String)
    (pages : List (List String)) (paragraphs : List String) (start : Nat)
    (_hne : paragraphs ≠ []) (h : start < paragraphs.length) :
    start < getNextPageBreak infer pages paragraphs start ∧
    getNextPageBreak infer pages paragraphs start ≤ paragraphs.length ∧
    (runPagination infer paragraphs).1.length ≤ paragraphs.length ∧
    (∀ fuel, paragraphs.length ≤ fuel →
      processLoop infer paragraphs fuel 0 [] [] 0 =
        runPagination infer paragraphs) := by
  have hb := getNextPageBreakM_bounds infer pages paragraphs start h
  refine ⟨hb.1, hb.2, ?_, ?_⟩
  · obtain ⟨hflat, hnn, _⟩ := runPagination_partition infer paragraphs
    have hlen := length_le_length_flatten _ hnn
    rw [hflat] at hlen
    exact hlen
  · intro fuel hf
    exact processLoop_fuel_irrel infer paragraphs fuel paragraphs.length 0 [] []
      0 (Nat.zero_le _) (by omega) (by omega)

/-- C2 witness: the bounds at a concrete document, start index 0, and
the always-failing oracle. -/
theorem c2_break_strictly_advances_witness :
    0 < getNextPageBreak (fun _ => none) [] ["a b c"] 0 ∧
    getNextPageBreak (fun _ => none) [] ["a b c"] 0 ≤ 1 :=
  ⟨(c2_break_strictly_advances (fun _ => none) [] ["a b c"] 0 (by decide)
      (by decide)).1,
    (c2_break_strictly_advances (fun _ => none) [] ["a b c"] 0 (by decide)
      (by decide)).2.1⟩

/-- C3: whenever the window holds at least 350 words (so the endpoint
is consulted), a failed call, a response with no `<n>` label, or a
label outside `(start, windowEnd]` all make `_get_next_page_break`
return the window end; a parsed candidate is the returned break index
if and only if `start < candidate ≤ windowEnd`. -/
theorem c3_candidate_accepted_iff (infer : String → Option String)
    (pages : List (List String)) (paragraphs : List String) (start : Nat)
    (h350 : 350 ≤ windowWords paragraphs start) :
    (infer (paginationPrompt pages paragraphs start) = none →
      getNextPageBreak infer pages paragraphs start =
        windowEnd paragraphs start) ∧
    (∀ r, infer (paginationPrompt pages paragraphs start) = some r →
      parsePausePoint r = none →
      getNextPageBreak infer pages paragraphs start =
        windowEnd paragraphs start) ∧
    (∀ r pausePoint, infer (paginationPrompt pages paragraphs start) = some r →
      parsePausePoint r = some pausePoint →
      (getNextPageBreak infer pages paragraphs start = pausePoint ↔
        (start < pausePoint ∧ pausePoint ≤ windowEnd paragraphs start)) ∧
      (¬ (start < pausePoint ∧ pausePoint ≤ windowEnd paragraphs start) →
        getNextPageBreak infer pages paragraphs start =
          windowEnd paragraphs start)) := by
  have hj : start < windowEnd paragraphs start := windowEnd_gt paragraphs start
  unfold windowEnd at hj ⊢
  have h350' : ¬ (gnpbWindow paragraphs start).2.1 < 350 := by
    have : 350 ≤ (gnpbWindow paragraphs start).2.1 := h350
    omega
  simp only [getNextPageBreak, getNextPageBreakM]
  rw [if_neg h350']
  refine ⟨?_, ?_, ?_⟩
  · intro hnone
    rw [hnone]
  · intro r hr hpp
    simp only [hr, hpp]
  · intro r pausePoint hr hpp
    simp only [hr, hpp]
    by_cases hc : pausePoint ≠ 0 ∧ start < pausePoint ∧
        pausePoint ≤ (gnpbWindow paragraphs start).1
    · rw [if_pos hc]
      exact ⟨by simp [hc.2.1, hc.2.2], fun hcon => absurd ⟨hc.2.1, hc.2.2⟩ hcon⟩
    · rw [if_neg hc]
      have hrange : ¬ (start < pausePoint ∧
          pausePoint ≤ (gnpbWindow paragraphs start).1) := by
        intro hcon
        exact hc ⟨by omega, hcon.1, hcon.2⟩
      refine ⟨⟨fun hjpp => absurd ⟨by omega, by omega⟩ hrange, ?_⟩, fun _ => rfl⟩
      intro hcon
      exact absurd hcon hrange

set_option maxRecDepth 100000 in
/-- C3 witness: a 350-word single-paragraph document consults the
endpoint; with the always-failing oracle the break is the window end. -/
theorem c3_candidate_accepted_iff_witness :
    getNextPageBreak (fun _ => none) []
        [String.mk (List.replicate 350 ['w', ' ']).flatten] 0 =
      windowEnd [String.mk (List.replicate 350 ['w', ' ']).flatten] 0 :=
  (c3_candidate_accepted_iff (fun _ => none) []
      [String.mk (List.replicate 350 ['w', ' ']).flatten] 0 (by decide)).1 rfl

/-- `_create_summary` performs exactly one inference call. -/
theorem createSummaryM_calls (infer : String → Option String)
    (page : List String) : (createSummaryM infer page).2 = 1 := by
  unfold createSummaryM
  split <;> rfl

/-- C4: if the words remaining from the start index to the end of the
document number fewer than 350, `_get_next_page_break` returns the
paragraph count with zero inference calls, and the loop then wraps the
whole remainder into one final page (with its summary) and stops. -/
theorem c4_short_tail_single_page (infer : String → Option String)
    (pages : List (List String)) (paragraphs : List String) (start : Nat)
    (h : remWords paragraphs start < 350) :
    getNextPageBreakM infer pages paragraphs start = (paragraphs.length, 0) ∧
    (start < paragraphs.length → ∀ fuel shortened calls,
      processLoop infer paragraphs (fuel + 1) start pages shortened calls =
        (pages ++ [paragraphs.drop start],
         shortened ++ [(createSummaryM infer (paragraphs.drop start)).1],
         calls + 1)) := by
  have hmain : getNextPageBreakM infer pages paragraphs start =
      (paragraphs.length, 0) := by
    by_cases hlt : start < paragraphs.length
    · have hdrop : paragraphs.drop start =
          paragraphs[start] :: paragraphs.drop (start + 1) :=
        List.drop_eq_getElem_cons hlt
      have hgetD : paragraphs.getD start "" = paragraphs[start] := by
        simp [List.getD_eq_getElem?_getD, List.getElem?_eq_getElem hlt]
      have hrem : remWords paragraphs start =
          wordCount paragraphs[start] +
            ((paragraphs.drop (start + 1)).map wordCount).sum := by
        rw [remWords, hdrop, List.map_cons, List.sum_cons]
      have hcons := accumWindow_consume paragraphs paragraphs.length
        (start + 1) (wordCount (paragraphs.getD start ""))
        [paragraphs.getD start ""] (by omega) (by omega)
        (by rw [hgetD]; unfold wordLimit; omega)
      have hww : (gnpbWindow paragraphs start).2.1 < 350 := by
        unfold gnpbWindow
        rw [hcons.2, hgetD]
        omega
      simp only [getNextPageBreakM]
      rw [if_pos hww]
    · have hgetD : paragraphs.getD start "" = "" := by
        simp [List.getD_eq_getElem?_getD, List.getElem?_eq_none
          (show paragraphs.length ≤ start by omega)]
      have hstop : (gnpbWindow paragraphs start).2.1 < 350 := by
        unfold gnpbWindow
        rw [hgetD, accumWindow_stop paragraphs paragraphs.length (start + 1)
          (wordCount "") [""] (by omega)]
        exact (by decide : wordCount "" < 350)
      simp only [getNextPageBreakM]
      rw [if_pos hstop]
  refine ⟨hmain, ?_⟩
  intro hlt fuel shortened calls
  have htake : (paragraphs.drop start).take (paragraphs.length - start) =
      paragraphs.drop start :=
    List.take_of_length_le (by simp)
  simp only [processLoop]
  rw [if_pos hlt, hmain]
  simp only [htake]
  rw [processLoop_exit infer paragraphs fuel paragraphs.length _ _ _
    (by omega)]
  simp [createSummaryM_calls]

/-- C4 witness: a three-word document returns its length with zero
calls. -/
theorem c4_short_tail_single_page_witness :
    getNextPageBreakM (fun _ => none) [] ["a b c"] 0 = (1, 0) :=
  (c4_short_tail_single_page (fun _ => none) [] ["a b c"] 0 (by decide)).1

/-- C5: `answer` on an agent with no pages fails with the
not-processed error and performs zero inference calls. -/
theorem c5_unprocessed_answer_fails (infer : String → Option String)
    (st : AgentState) (question : String) (h : st.pages = []) :
    answerM infer st question =
      (Except.error AnswerFailure.notProcessed, 0) := by
  simp [answerM, h]

/-- C5 witness: the freshly initialized agent. -/
theorem c5_unprocessed_answer_fails_witness :
    answerM (fun _ => none) initialAgentState "q" =
      (Except.error AnswerFailure.notProcessed, 0) :=
  c5_unprocessed_answer_fails (fun _ => none) initialAgentState "q" rfl

theorem lookup_foldl_eq (n : Nat) :
    ∀ (ts : List (List Char)) (acc : List Nat),
      ts.foldl (fun acc p =>
        let s := pyStrip p
        if isNumericTok s then
          let pid := digitsVal s
          if pid < n then acc ++ [pid] else acc
        else acc) acc
      = acc ++ (((ts.map pyStrip).filterMap
          (fun t => if isNumericTok t then some (digitsVal t) else none)).filter
            (fun v => v < n)) := by
  intro ts
  induction ts with
  | nil => intro acc; simp
  | cons t ts ih =>
    intro acc
    by_cases hnum : isNumericTok (pyStrip t)
    · by_cases hlt : digitsVal (pyStrip t) < n
      · simp [hnum, hlt, ih]
      · simp [hnum, hlt, ih]
    · simp [hnum, ih]

theorem lookupPageIds_eq (text : String) (n : Nat) :
    lookupPageIds text n =
      (match firstBracketGroup text with
        | none => []
        | some g => (numericTokenValues g).filter (fun v => v < n)) := by
  cases hfb : firstBracketGroup text with
  | none => simp [lookupPageIds, hfb]
  | some g =>
    simp only [lookupPageIds, numericTokenValues, hfb]
    simpa using lookup_foldl_eq n (pySplitComma g.toList) []

theorem lookupPageIds_lt (text : String) (n : Nat) :
    ∀ pid ∈ lookupPageIds text n, pid < n := by
  intro pid hpid
  rw [lookupPageIds_eq] at hpid
  cases hfb : firstBracketGroup text with
  | none => rw [hfb] at hpid; simp at hpid
  | some g =>
    rw [hfb] at hpid
    simp only [List.mem_filter, decide_eq_true_eq] at hpid
    exact hpid.2

/-- C6: any lookup response whose first bracketed comma-separated
integer list reads 2, 2, 5, 99, validated against a ten-page store,
selects exactly the pages 2, 2, 5 in order (the total function raises
no failure), whose index set is `{2, 5}`: the duplicate 2 collapses in
the selection set and the out-of-range 99 is dropped. -/
theorem c6_lookup_selection (text g : String)
    (hg : firstBracketGroup text = some g)
    (hvals : numericTokenValues g = [2, 2, 5, 99]) :
    lookupPageIds text 10 = [2, 2, 5] ∧
    (lookupPageIds text 10).toFinset = ({2, 5} : Finset Nat) := by
  have h1 : lookupPageIds text 10 = [2, 2, 5] := by
    simp only [lookupPageIds_eq, hg]
    rw [hvals]
    decide
  exact ⟨h1, by rw [h1]; decide⟩

/-- C6 witness: a concrete lookup response containing `[2, 2, 5, 99]`. -/
theorem c6_lookup_selection_witness :
    lookupPageIds "I want to look up Page [2, 2, 5, 99] to check" 10 =
        [2, 2, 5] ∧
    (lookupPageIds "I want to look up Page [2, 2, 5, 99] to check"
        10).toFinset = ({2, 5} : Finset Nat) :=
  c6_lookup_selection "I want to look up Page [2, 2, 5, 99] to check"
    "2, 2, 5, 99" (by decide) (by decide)

/-- C7: the expansion stage replaces exactly the selected page's
summary by that page's full text, keeps the other summaries, and
preserves page order. -/
theorem c7_expansion_substitutes_full_text :
    expandPages ["S0", "S1", "S2"] [["P0 full"], ["P1 full"], ["P2 full"]]
      [1] = ["S0", "P1 full", "S2"] := by
  decide

/-- C8: recording two successful calls with usage (10, 5) and (20, 15)
on fresh metrics accumulates prompt tokens 30 and response tokens 20,
and leaves the average tokens/second equal to 20 divided by the
cumulative completion time; recording a response carrying no usage
block changes none of the three token counters (and the update is a
total function: it never fails). -/
theorem c8_metrics_accumulate (r1 r2 : LlmResponse) (d1 d2 : ℚ)
    (u1 u2 : Usage) (h1 : r1.usage = some u1) (h2 : r2.usage = some u2)
    (hp1 : u1.prompt_tokens = 10) (hc1 : u1.completion_tokens = 5)
    (hp2 : u2.prompt_tokens = 20) (hc2 : u2.completion_tokens = 15)
    (ht1 : 0 ≤ effectiveTime r1 d1) (ht2 : 0 ≤ effectiveTime r2 d2) :
    (updateLlmMetrics (updateLlmMetrics initialMetrics r1 d1) r2
        d2).prompt_tokens = 30 ∧
    (updateLlmMetrics (updateLlmMetrics initialMetrics r1 d1) r2
        d2).response_tokens = 20 ∧
    (updateLlmMetrics (updateLlmMetrics initialMetrics r1 d1) r2
        d2).avg_tokens_per_second =
      20 / (updateLlmMetrics (updateLlmMetrics initialMetrics r1 d1) r2
        d2).completion_time ∧
    (∀ (m : Metrics) (r : LlmResponse) (d : ℚ), r.usage = none →
      (updateLlmMetrics m r d).prompt_tokens = m.prompt_tokens ∧
      (updateLlmMetrics m r d).response_tokens = m.response_tokens ∧
      (updateLlmMetrics m r d).total_tokens = m.total_tokens) := by
  have hlast : ∀ (m : Metrics) (r : LlmResponse) (d : ℚ), r.usage = none →
      (updateLlmMetrics m r d).prompt_tokens = m.prompt_tokens ∧
      (updateLlmMetrics m r d).response_tokens = m.response_tokens ∧
      (updateLlmMetrics m r d).total_tokens = m.total_tokens := by
    intro m r d hr
    simp only [updateLlmMetrics, hr]
    split <;> simp
  have hXp : (updateLlmMetrics initialMetrics r1 d1).prompt_tokens = 10 := by
    simp only [updateLlmMetrics, h1, hp1, initialMetrics]
    split <;> simp
  have hXr : (updateLlmMetrics initialMetrics r1 d1).response_tokens = 5 := by
    simp only [updateLlmMetrics, h1, hc1, initialMetrics]
    split <;> simp
  have hXt : (updateLlmMetrics initialMetrics r1 d1).completion_time =
      effectiveTime r1 d1 := by
    simp only [updateLlmMetrics, h1, initialMetrics]
    split <;> simp
  have hXa0 : effectiveTime r1 d1 = 0 →
      (updateLlmMetrics initialMetrics r1 d1).avg_tokens_per_second = 0 := by
    intro h0
    simp only [updateLlmMetrics, h1, initialMetrics, h0]
    split
    · next hcond => exact absurd hcond (by norm_num)
    · simp
  generalize hX : updateLlmMetrics initialMetrics r1 d1 = X
  rw [hX] at hXp hXr hXt hXa0
  refine ⟨?_, ?_, ?_, hlast⟩
  · simp only [updateLlmMetrics, h2, hp2]
    split <;> simp [hXp]
  · simp only [updateLlmMetrics, h2, hc2]
    split <;> simp [hXr]
  · simp only [updateLlmMetrics, h2, hc2]
    split
    · next hC => simp [hXr, hXt]
    · next hC =>
      have h5 : 0 < X.response_tokens + 15 := by omega
      have hTnot : ¬ 0 < X.completion_time + effectiveTime r2 d2 :=
        fun hpos => hC ⟨hpos, h5⟩
      rw [hXt] at hTnot
      have hsum : effectiveTime r1 d1 + effectiveTime r2 d2 ≤ 0 :=
        not_lt.mp hTnot
      have ht1z : effectiveTime r1 d1 = 0 := le_antisymm (by linarith) ht1
      have ht2z : effectiveTime r2 d2 = 0 := le_antisymm (by linarith) ht2
      simp [hXa0 ht1z, hXt, ht1z, ht2z]

/-- C8 witness: two concrete responses, each with reported usage and a
wall-clock delta of one second. -/
theorem c8_metrics_accumulate_witness :
    (updateLlmMetrics (updateLlmMetrics initialMetrics
        ⟨none, some ⟨10, 5, 15⟩⟩ 1) ⟨none, some ⟨20, 15, 35⟩⟩
        1).prompt_tokens = 30 ∧
    (updateLlmMetrics (updateLlmMetrics initialMetrics
        ⟨none, some ⟨10, 5, 15⟩⟩ 1) ⟨none, some ⟨20, 15, 35⟩⟩
        1).response_tokens = 20 ∧
    (updateLlmMetrics (updateLlmMetrics initialMetrics
        ⟨none, some ⟨10, 5, 15⟩⟩ 1) ⟨none, some ⟨20, 15, 35⟩⟩
        1).avg_tokens_per_second =
      20 / (updateLlmMetrics (updateLlmMetrics initialMetrics
        ⟨none, some ⟨10, 5, 15⟩⟩ 1) ⟨none, some ⟨20, 15, 35⟩⟩
        1).completion_time :=
  ⟨(c8_metrics_accumulate ⟨none, some ⟨10, 5, 15⟩⟩ ⟨none, some ⟨20, 15, 35⟩⟩
      1 1 ⟨10, 5, 15⟩ ⟨20, 15, 35⟩ rfl rfl rfl rfl rfl rfl
      (by norm_num [effectiveTime]) (by norm_num [effectiveTime])).1,
    (c8_metrics_accumulate ⟨none, some ⟨10, 5, 15⟩⟩ ⟨none, some ⟨20, 15, 35⟩⟩
      1 1 ⟨10, 5, 15⟩ ⟨20, 15, 35⟩ rfl rfl rfl rfl rfl rfl
      (by norm_num [effectiveTime]) (by norm_num [effectiveTime])).2.1,
    (c8_metrics_accumulate ⟨none, some ⟨10, 5, 15⟩⟩ ⟨none, some ⟨20, 15, 35⟩⟩
      1 1 ⟨10, 5, 15⟩ ⟨20, 15, 35⟩ rfl rfl rfl rfl rfl rfl
      (by norm_num [effectiveTime]) (by norm_num [effectiveTime])).2.2.1⟩

/-- C9: when the extracted title is absent (or empty),
`process_document` aborts before creating any page: the page and
summary lists are exactly as before the call, and zero pagination or
summarization inference calls are made. -/
theorem c9_missing_title_aborts (infer : String → Option String)
    (titleResult : Option String) (paragraphs : List String)
    (st : AgentState) (h : titleResult = none ∨ titleResult = some "") :
    (processDocument infer titleResult paragraphs st).1.pages = st.pages ∧
    (processDocument infer titleResult paragraphs st).1.shortenedPages =
      st.shortenedPages ∧
    (processDocument infer titleResult paragraphs st).2 = 0 := by
  simp only [processDocument]
  rw [if_pos h]
  exact ⟨rfl, rfl, rfl⟩

/-- C9 witness: a missing title on a fresh agent leaves both stores
empty with zero calls. -/
theorem c9_missing_title_aborts_witness :
    (processDocument (fun _ => none) none ["x"] initialAgentState).1.pages =
        [] ∧
    (processDocument (fun _ => none) none ["x"]
        initialAgentState).1.shortenedPages = [] ∧
    (processDocument (fun _ => none) none ["x"] initialAgentState).2 = 0 :=
  c9_missing_title_aborts (fun _ => none) none ["x"] initialAgentState
    (Or.inl rfl)

/-- C10: the page and summary stores have equal lengths at
initialization, after every iteration of the processing loop (the loop
preserves the equality from any intermediate state, appending exactly
one page and one summary per iteration), and hence after
`process_document`; this equality puts every lookup-validated page
index (checked against the page list) in bounds for the summary list
read by the expansion stage. -/
theorem c10_pages_summaries_parallel :
    initialAgentState.pages.length =
      initialAgentState.shortenedPages.length ∧
    (∀ (infer : String → Option String) (paragraphs : List String)
        (fuel pause : Nat) (pages : List (List String))
        (shortened : List String) (calls : Nat),
      pages.length = shortened.length →
      (processLoop infer paragraphs fuel pause pages shortened calls).1.length
        = (processLoop infer paragraphs fuel pause pages shortened
            calls).2.1.length) ∧
    (∀ (st : AgentState) (text : String),
      st.pages.length = st.shortenedPages.length →
      ∀ pid ∈ lookupPageIds text st.pages.length,
        pid < st.shortenedPages.length) := by
  refine ⟨rfl, ?_, ?_⟩
  · intro infer paragraphs fuel pause pages shortened calls h
    exact processLoop_lengths infer paragraphs fuel pause pages shortened
      calls h
  · intro st text heq pid hpid
    rw [← heq]
    exact lookupPageIds_lt text st.pages.length pid hpid

/-- C10 witness: the loop-preservation component at a concrete state. -/
theorem c10_pages_summaries_parallel_witness :
    (processLoop (fun _ => none) ["a"] 1 0 [] [] 0).1.length =
      (processLoop (fun _ => none) ["a"] 1 0 [] [] 0).2.1.length :=
  c10_pages_summaries_parallel.2.1 (fun _ => none) ["a"] 1 0 [] [] 0 rfl

end Gist
